import Mathlib

/-!
# Verification of the ray-tracing-primer kernel

Shallow embedding of the C++ ray tracer (`vec3`, `ray`, `sphere::hit`,
`hit_sphere`, `ray_color`, the `main` render loop) over the real numbers,
together with theorems settling the specification's claims.

Doubles are modelled as real numbers; `sqrt` is `Real.sqrt`.
The by-reference `hit_record& rec` parameter of `sphere::hit` is modelled by
explicit state passing: the function returns the pair of its `bool` result and
the final value of `rec`.
-/

noncomputable section

open Classical

/-- The 3-component vector of `vec3.hpp` (`e[0], e[1], e[2]` exposed through
accessors `x(), y(), z()`); also used as `point3` and `color`. -/
structure vec3 where
  x : ℝ
  y : ℝ
  z : ℝ

instance : Add vec3 := ⟨fun u v => ⟨u.x + v.x, u.y + v.y, u.z + v.z⟩⟩

instance : Sub vec3 := ⟨fun u v => ⟨u.x - v.x, u.y - v.y, u.z - v.z⟩⟩

instance : Neg vec3 := ⟨fun v => ⟨-v.x, -v.y, -v.z⟩⟩

instance : HMul ℝ vec3 vec3 := ⟨fun t v => ⟨t * v.x, t * v.y, t * v.z⟩⟩

instance : HDiv vec3 ℝ vec3 := ⟨fun v t => ⟨v.x / t, v.y / t, v.z / t⟩⟩

/-- `vec3::length_squared`: `e[0]*e[0] + e[1]*e[1] + e[2]*e[2]`. -/
def vec3.length_squared (v : vec3) : ℝ := v.x * v.x + v.y * v.y + v.z * v.z

/-- `vec3::length`: `sqrt(length_squared())`. -/
def vec3.length (v : vec3) : ℝ := Real.sqrt v.length_squared

/-- `dot(u, v)` from the `vec3` utility header: componentwise product sum. -/
def dot (u v : vec3) : ℝ := u.x * v.x + u.y * v.y + u.z * v.z

/-- `unit_vector(v) = v / v.length()`. -/
def unit_vector (v : vec3) : vec3 := v / v.length

/-- The `ray` class of `ray.hpp`: origin `orig` and direction `dir`. -/
structure ray where
  orig : vec3
  dir : vec3

/-- `ray::origin()`. -/
def ray.origin (r : ray) : vec3 := r.orig

/-- `ray::direction()`. -/
def ray.direction (r : ray) : vec3 := r.dir

/-- `ray::at(t) = orig + t * dir` (named `pointAt` because `at` is reserved
in Lean). -/
def ray.pointAt (r : ray) (t : ℝ) : vec3 := r.orig + t * r.dir

/-- The `hit_record` struct of `hittable.hpp`: intersection point, oriented
normal, ray parameter, and the front-face flag. -/
structure hit_record where
  p : vec3
  normal : vec3
  t : ℝ
  front_face : Bool

/-- Modelled from the spec: `hit_record::set_face_normal` lives in
`hittable.hpp`, which is not among the provided sources.  Per §3 of the spec,
`front_face = dot(ray.direction, outward_normal) < 0`; the normal is the
outward normal when `front_face` holds and its negation otherwise. -/
def hit_record.set_face_normal (rec : hit_record) (r : ray) (outward_normal : vec3) :
    hit_record :=
  { rec with
      front_face := decide (dot r.direction outward_normal < 0),
      normal := if dot r.direction outward_normal < 0 then outward_normal else -outward_normal }

/-- The `sphere` class of `sphere.hpp`: center and radius. -/
structure sphere where
  center : vec3
  radius : ℝ

/-- `half_b = dot(oc, r.direction())` with `oc = r.origin() - center`. -/
def sphere.halfB (s : sphere) (r : ray) : ℝ := dot (r.origin - s.center) r.direction

/-- `c = oc.length_squared() - radius * radius`. -/
def sphere.cCoeff (s : sphere) (r : ray) : ℝ :=
  (r.origin - s.center).length_squared - s.radius * s.radius

/-- `discriminant = half_b * half_b - a * c` with `a = r.direction().length_squared()`. -/
def sphere.disc (s : sphere) (r : ray) : ℝ :=
  s.halfB r * s.halfB r - r.direction.length_squared * s.cCoeff r

/-- The first root tried by `sphere::hit`: `(-half_b - sqrtd) / a`. -/
def sphere.root1 (s : sphere) (r : ray) : ℝ :=
  (-s.halfB r - Real.sqrt (s.disc r)) / r.direction.length_squared

/-- The second root tried by `sphere::hit`: `(-half_b + sqrtd) / a`. -/
def sphere.root2 (s : sphere) (r : ray) : ℝ :=
  (-s.halfB r + Real.sqrt (s.disc r)) / r.direction.length_squared

/-- The write block at the end of `sphere::hit`: `rec.t = root;
rec.p = r.at(rec.t); outward_normal = (rec.p - center) / radius;
rec.set_face_normal(r, outward_normal)`. -/
def sphere.successRec (s : sphere) (r : ray) (rec : hit_record) (root : ℝ) : hit_record :=
  let p := r.pointAt root
  let outward_normal := (p - s.center) / s.radius
  hit_record.set_face_normal { rec with t := root, p := p } r outward_normal

/-- `sphere::hit` from `sphere.cpp`.  The by-reference `hit_record& rec` is
modelled by returning the pair of the `bool` result and the final record: the
early `return false` paths leave `rec` as received, and the success path
performs the writes of `successRec`. -/
def sphere.hit (s : sphere) (r : ray) (t_min t_max : ℝ) (rec : hit_record) :
    Bool × hit_record :=
  if s.disc r < 0 then (false, rec)
  else
    let root? : Option ℝ :=
      if s.root1 r < t_min ∨ s.root1 r > t_max then
        if s.root2 r < t_min ∨ s.root2 r > t_max then none
        else some (s.root2 r)
      else some (s.root1 r)
    match root? with
    | none => (false, rec)
    | some root => (true, s.successRec r rec root)

/-- The full-`b` quadratic coefficient of the legacy `hit_sphere` in
`main.cpp`: `b = 2.0 * dot(oc, r.direction())`. -/
def bFull (center : vec3) (r : ray) : ℝ := 2.0 * dot (r.origin - center) r.direction

/-- The legacy discriminant `b*b - 4*a*c` of `hit_sphere`, with
`a = dot(r.direction(), r.direction())` and `c = dot(oc, oc) - radius*radius`. -/
def discFull (center : vec3) (radius : ℝ) (r : ray) : ℝ :=
  bFull center r * bFull center r -
    4 * dot r.direction r.direction * (dot (r.origin - center) (r.origin - center) - radius * radius)

/-- `hit_sphere` from `main.cpp`: returns `-1.0` when the discriminant is
negative, else the smaller root `(-b - sqrt(discriminant)) / (2.0 * a)`. -/
def hit_sphere (center : vec3) (radius : ℝ) (r : ray) : ℝ :=
  if discFull center radius r < 0 then -1.0
  else (-bFull center r - Real.sqrt (discFull center radius r)) / (2.0 * dot r.direction r.direction)

/-- Squared distance from a sphere center to the closest point of the ray's
supporting line: `|oc|^2 - (oc . d)^2 / |d|^2`. -/
def closest_approach_sq (center : vec3) (r : ray) : ℝ :=
  (r.origin - center).length_squared -
    dot (r.origin - center) r.direction * dot (r.origin - center) r.direction /
      r.direction.length_squared

/-- `ray_color` from the recursive-diffuse main translation unit.  The scene
query `world.hit(r, 0.001, infinity, rec)` is abstracted as a function
`world : ray → Option hit_record` (the aggregate `hittable_list` is not among
the provided sources; the bounds `0.001` and `infinity` are folded into it),
and the random draw `random_in_hemisphere(rec.normal)` is abstracted as an
oracle `scatter` indexed by the current depth and the hit normal.  Everything
else mirrors the source: the depth guard returns black, a hit recurses on the
ray from `rec.p` toward `rec.p + scatter` with attenuation `0.5` and depth
`depth - 1`, and a miss returns the sky gradient
`(1-t)*(1,1,1) + t*(0.5,0.7,1.0)` with `t = 0.5*(unit_direction.y + 1.0)`. -/
def ray_color (world : ray → Option hit_record) (scatter : ℤ → vec3 → vec3)
    (r : ray) (depth : ℤ) : vec3 :=
  if depth ≤ 0 then ⟨0, 0, 0⟩
  else
    match world r with
    | some rec =>
        let target := rec.p + scatter depth rec.normal
        (0.5 : ℝ) * ray_color world scatter ⟨rec.p, target - rec.p⟩ (depth - 1)
    | none =>
        let unit_direction := unit_vector r.direction
        let t := 0.5 * (unit_direction.y + 1.0)
        (1.0 - t) * (⟨1, 1, 1⟩ : vec3) + t * (⟨0.5, 0.7, 1.0⟩ : vec3)
termination_by depth.toNat
decreasing_by
  simp only [not_le] at *
  omega

/-- `aspect_ratio = 16.0 / 9.0` from `main`. -/
def aspect_ratio : ℝ := 16.0 / 9.0

/-- `image_width = 400` from `main`. -/
def image_width : ℤ := 400

/-- `image_height = static_cast<int>(image_width / aspect_ratio)`; the cast
truncates toward zero, which for this positive quotient is the floor. -/
def image_height : ℤ := ⌊(image_width : ℝ) / aspect_ratio⌋

/-- One line of the program's standard-output stream.  `write_color`
(`color.hpp`, not among the provided sources) is modelled from the spec as
emitting exactly one `R G B` line per call; a pixel line is identified here by
the loop indices `(j, i)` of the `write_color` call that produced it. -/
inductive ppmLine where
  | magic : ppmLine
  | dims (w h : ℤ) : ppmLine
  | maxval (m : ℕ) : ppmLine
  | pixel (j i : ℕ) : ppmLine
deriving DecidableEq

/-- The standard-output stream of `main`: the header
`"P3\n" << image_width << ' ' << image_height << "\n255\n"` followed by the
doubly nested render loop, `j` from `image_height - 1` down to `0` and `i`
from `0` to `image_width - 1`, one `write_color` line per iteration. -/
def render : List ppmLine :=
  [ppmLine.magic, ppmLine.dims image_width image_height, ppmLine.maxval 255] ++
    (List.range image_height.toNat).reverse.flatMap
      (fun j => (List.range image_width.toNat).map fun i => ppmLine.pixel j i)

/-- Concrete unit sphere at the origin, used by the witnesses. -/
def sUnit : sphere := ⟨⟨0, 0, 0⟩, 1⟩

/-- Concrete ray from `(2,0,0)` toward `(-1,0,0)`: it meets `sUnit` at
parameters `t = 1` and `t = 3`. -/
def rAxis : ray := ⟨⟨2, 0, 0⟩, ⟨-1, 0, 0⟩⟩

/-- Concrete ray from `(0,2,0)` toward `(1,0,0)`: its line passes the center
of `sUnit` at distance `2 > 1`, so it misses. -/
def rMiss : ray := ⟨⟨0, 2, 0⟩, ⟨1, 0, 0⟩⟩

/-- A concrete initial hit record, used by the witnesses. -/
def recInit : hit_record := ⟨⟨0, 0, 0⟩, ⟨0, 0, 0⟩, 0, false⟩

/-- Concrete ray pointing straight up, used by the witnesses. -/
def rUp : ray := ⟨⟨0, 0, 0⟩, ⟨0, 1, 0⟩⟩

/-- A concrete scene query that never reports a hit, used by the witnesses. -/
def worldNone : ray → Option hit_record := fun _ => none

/-- A concrete scatter oracle, used by the witnesses. -/
def scatterZero : ℤ → vec3 → vec3 := fun _ _ => ⟨0, 0, 0⟩

/- ——————————————————————— theorems ——————————————————————— -/

theorem vec3.add_x (u v : vec3) : (u + v).x = u.x + v.x := rfl

theorem vec3.add_y (u v : vec3) : (u + v).y = u.y + v.y := rfl

theorem vec3.add_z (u v : vec3) : (u + v).z = u.z + v.z := rfl

theorem vec3.sub_x (u v : vec3) : (u - v).x = u.x - v.x := rfl

theorem vec3.sub_y (u v : vec3) : (u - v).y = u.y - v.y := rfl

theorem vec3.sub_z (u v : vec3) : (u - v).z = u.z - v.z := rfl

theorem vec3.neg_x (v : vec3) : (-v).x = -v.x := rfl

theorem vec3.neg_y (v : vec3) : (-v).y = -v.y := rfl

theorem vec3.neg_z (v : vec3) : (-v).z = -v.z := rfl

theorem vec3.smul_x (t : ℝ) (v : vec3) : (t * v).x = t * v.x := rfl

theorem vec3.smul_y (t : ℝ) (v : vec3) : (t * v).y = t * v.y := rfl

theorem vec3.smul_z (t : ℝ) (v : vec3) : (t * v).z = t * v.z := rfl

theorem vec3.div_x (v : vec3) (t : ℝ) : (v / t).x = v.x / t := rfl

theorem vec3.div_y (v : vec3) (t : ℝ) : (v / t).y = v.y / t := rfl

theorem vec3.div_z (v : vec3) (t : ℝ) : (v / t).z = v.z / t := rfl

attribute [simp] vec3.add_x vec3.add_y vec3.add_z vec3.sub_x vec3.sub_y vec3.sub_z
  vec3.neg_x vec3.neg_y vec3.neg_z vec3.smul_x vec3.smul_y vec3.smul_z
  vec3.div_x vec3.div_y vec3.div_z

theorem vec3.ext_iff {u v : vec3} : u = v ↔ u.x = v.x ∧ u.y = v.y ∧ u.z = v.z := by
  cases u; cases v; simp [vec3.mk.injEq]

theorem vec3.length_squared_nonneg (v : vec3) : 0 ≤ v.length_squared := by
  unfold vec3.length_squared
  nlinarith [sq_nonneg v.x, sq_nonneg v.y, sq_nonneg v.z]

theorem vec3.length_squared_pos_of_ne_zero {v : vec3} (h : v ≠ ⟨0, 0, 0⟩) :
    0 < v.length_squared := by
  rcases lt_or_eq_of_le v.length_squared_nonneg with hlt | heq
  · exact hlt
  · exfalso
    apply h
    unfold vec3.length_squared at heq
    have hx : v.x = 0 := by nlinarith [sq_nonneg v.x, sq_nonneg v.y, sq_nonneg v.z]
    have hy : v.y = 0 := by nlinarith [sq_nonneg v.x, sq_nonneg v.y, sq_nonneg v.z]
    have hz : v.z = 0 := by nlinarith [sq_nonneg v.x, sq_nonneg v.y, sq_nonneg v.z]
    exact vec3.ext_iff.mpr ⟨hx, hy, hz⟩

theorem dot_self_eq_length_squared (v : vec3) : dot v v = v.length_squared := rfl

theorem sphere.hit_of_disc_neg (s : sphere) (r : ray) (t_min t_max : ℝ) (rec : hit_record)
    (h : s.disc r < 0) : s.hit r t_min t_max rec = (false, rec) := by
  simp [sphere.hit, h]

theorem sphere.hit_of_root1_valid (s : sphere) (r : ray) (t_min t_max : ℝ) (rec : hit_record)
    (hd : ¬ s.disc r < 0) (h1 : t_min ≤ s.root1 r) (h2 : s.root1 r ≤ t_max) :
    s.hit r t_min t_max rec = (true, s.successRec r rec (s.root1 r)) := by
  simp only [sphere.hit, hd, if_false]
  have : ¬ (s.root1 r < t_min ∨ s.root1 r > t_max) := by
    push_neg
    exact ⟨h1, h2⟩
  simp [this]

theorem sphere.hit_of_root2_valid (s : sphere) (r : ray) (t_min t_max : ℝ) (rec : hit_record)
    (hd : ¬ s.disc r < 0) (h1 : s.root1 r < t_min ∨ s.root1 r > t_max)
    (h2 : t_min ≤ s.root2 r) (h3 : s.root2 r ≤ t_max) :
    s.hit r t_min t_max rec = (true, s.successRec r rec (s.root2 r)) := by
  simp only [sphere.hit, hd, if_false]
  have h2' : ¬ (s.root2 r < t_min ∨ s.root2 r > t_max) := by
    push_neg
    exact ⟨h2, h3⟩
  simp [h1, h2']

theorem sphere.hit_of_no_valid_root (s : sphere) (r : ray) (t_min t_max : ℝ) (rec : hit_record)
    (h1 : s.root1 r < t_min ∨ s.root1 r > t_max)
    (h2 : s.root2 r < t_min ∨ s.root2 r > t_max) :
    s.hit r t_min t_max rec = (false, rec) := by
  by_cases hd : s.disc r < 0
  · simp [sphere.hit, hd]
  · simp [sphere.hit, hd, h1, h2]

/-- On any `true` return, the reported parameter is one of the two roots and
the record is the corresponding success record. -/
theorem sphere.hit_true_cases (s : sphere) (r : ray) (t_min t_max : ℝ) (rec : hit_record)
    (h : (s.hit r t_min t_max rec).1 = true) :
    ¬ s.disc r < 0 ∧
      ((s.hit r t_min t_max rec).2 = s.successRec r rec (s.root1 r) ∨
        (s.hit r t_min t_max rec).2 = s.successRec r rec (s.root2 r)) := by
  by_cases hd : s.disc r < 0
  · rw [sphere.hit_of_disc_neg s r t_min t_max rec hd] at h
    simp at h
  · refine ⟨hd, ?_⟩
    by_cases h1 : s.root1 r < t_min ∨ s.root1 r > t_max
    · by_cases h2 : s.root2 r < t_min ∨ s.root2 r > t_max
      · rw [sphere.hit_of_no_valid_root s r t_min t_max rec h1 h2] at h
        simp at h
      · push_neg at h2
        rw [sphere.hit_of_root2_valid s r t_min t_max rec hd h1 h2.1 h2.2]
        right; rfl
    · push_neg at h1
      rw [sphere.hit_of_root1_valid s r t_min t_max rec hd h1.1 h1.2]
      left; rfl

theorem dot_neg_right (u v : vec3) : dot u (-v) = -dot u v := by
  unfold dot
  simp only [vec3.neg_x, vec3.neg_y, vec3.neg_z]
  ring

theorem neg_length_squared (v : vec3) : (-v).length_squared = v.length_squared := by
  unfold vec3.length_squared
  simp only [vec3.neg_x, vec3.neg_y, vec3.neg_z]
  ring

theorem div_length_squared (v : vec3) (t : ℝ) :
    (v / t).length_squared = v.length_squared / (t * t) := by
  unfold vec3.length_squared
  simp only [vec3.div_x, vec3.div_y, vec3.div_z]
  ring

/-- Evaluating the sphere equation along the ray gives the quadratic of
`sphere::hit`: `|R(t)-C|^2 - r^2 = a t^2 + 2 half_b t + c`. -/
theorem sphere.quad_eval (s : sphere) (r : ray) (t : ℝ) :
    (r.pointAt t - s.center).length_squared - s.radius * s.radius =
      r.direction.length_squared * t ^ 2 + 2 * s.halfB r * t + s.cCoeff r := by
  unfold ray.pointAt sphere.halfB sphere.cCoeff vec3.length_squared dot ray.origin ray.direction
  simp
  ring

/-- With a nonzero `a` and a nonnegative discriminant, the quadratic factors
through the two roots computed by `sphere::hit`. -/
theorem sphere.quad_factor (s : sphere) (r : ray)
    (ha : r.direction.length_squared ≠ 0) (hd : 0 ≤ s.disc r) (t : ℝ) :
    r.direction.length_squared * t ^ 2 + 2 * s.halfB r * t + s.cCoeff r =
      r.direction.length_squared * (t - s.root1 r) * (t - s.root2 r) := by
  have hu : Real.sqrt (s.disc r) * Real.sqrt (s.disc r) = s.disc r :=
    Real.mul_self_sqrt hd
  unfold sphere.root1 sphere.root2
  unfold sphere.disc at hu ⊢
  field_simp
  linear_combination hu

/-- For a nonzero direction and nonnegative discriminant, the parameters at
which the ray meets the sphere surface are exactly `root1` and `root2`. -/
theorem sphere.on_sphere_iff_root (s : sphere) (r : ray)
    (ha : r.direction.length_squared ≠ 0) (hd : 0 ≤ s.disc r) (t : ℝ) :
    (r.pointAt t - s.center).length_squared = s.radius * s.radius ↔
      t = s.root1 r ∨ t = s.root2 r := by
  have key : (r.pointAt t - s.center).length_squared - s.radius * s.radius =
      r.direction.length_squared * (t - s.root1 r) * (t - s.root2 r) := by
    rw [sphere.quad_eval]
    exact sphere.quad_factor s r ha hd t
  constructor
  · intro h
    have h0 : r.direction.length_squared * (t - s.root1 r) * (t - s.root2 r) = 0 := by
      rw [← key, h]
      ring
    rcases mul_eq_zero.mp h0 with h1 | h2
    · rcases mul_eq_zero.mp h1 with h3 | h4
      · exact absurd h3 ha
      · exact Or.inl (sub_eq_zero.mp h4)
    · exact Or.inr (sub_eq_zero.mp h2)
  · intro h
    have h0 : r.direction.length_squared * (t - s.root1 r) * (t - s.root2 r) = 0 := by
      rcases h with h | h <;> rw [h] <;> ring
    have := key.trans h0
    linarith

theorem sphere.root1_le_root2 (s : sphere) (r : ray)
    (ha : 0 < r.direction.length_squared) : s.root1 r ≤ s.root2 r := by
  unfold sphere.root1 sphere.root2
  have hs : 0 ≤ Real.sqrt (s.disc r) := Real.sqrt_nonneg _
  exact (div_le_div_iff_of_pos_right ha).mpr (by linarith)

theorem sphere.successRec_t (s : sphere) (r : ray) (rec : hit_record) (root : ℝ) :
    (s.successRec r rec root).t = root := rfl

theorem sphere.successRec_p (s : sphere) (r : ray) (rec : hit_record) (root : ℝ) :
    (s.successRec r rec root).p = r.pointAt root := rfl

theorem sphere.successRec_normal (s : sphere) (r : ray) (rec : hit_record) (root : ℝ) :
    (s.successRec r rec root).normal = (r.pointAt root - s.center) / s.radius ∨
      (s.successRec r rec root).normal = -((r.pointAt root - s.center) / s.radius) := by
  unfold sphere.successRec hit_record.set_face_normal
  by_cases h : dot r.direction ((r.pointAt root - s.center) / s.radius) < 0
  · left
    simp [h]
  · right
    simp [h]

theorem sphere.successRec_dot_nonpos (s : sphere) (r : ray) (rec : hit_record) (root : ℝ) :
    dot r.direction (s.successRec r rec root).normal ≤ 0 := by
  unfold sphere.successRec hit_record.set_face_normal
  by_cases h : dot r.direction ((r.pointAt root - s.center) / s.radius) < 0
  · simp only [h, if_true]
    exact le_of_lt h
  · simp only [h, if_false]
    rw [dot_neg_right]
    push_neg at h
    linarith

/- Concrete evaluations on the witness sphere and rays. -/

theorem rAxis_a : rAxis.direction.length_squared = 1 := by
  simp [rAxis, ray.direction, vec3.length_squared]

theorem sUnit_rAxis_halfB : sUnit.halfB rAxis = -2 := by
  norm_num [sphere.halfB, sUnit, rAxis, ray.origin, ray.direction, dot]

theorem sUnit_rAxis_cCoeff : sUnit.cCoeff rAxis = 3 := by
  norm_num [sphere.cCoeff, sUnit, rAxis, ray.origin, vec3.length_squared]

theorem sUnit_rAxis_disc : sUnit.disc rAxis = 1 := by
  rw [sphere.disc, sUnit_rAxis_halfB, sUnit_rAxis_cCoeff, rAxis_a]
  norm_num

theorem sUnit_rAxis_root1 : sUnit.root1 rAxis = 1 := by
  rw [sphere.root1, sUnit_rAxis_disc, sUnit_rAxis_halfB, rAxis_a]
  norm_num

theorem sUnit_rAxis_root2 : sUnit.root2 rAxis = 3 := by
  rw [sphere.root2, sUnit_rAxis_disc, sUnit_rAxis_halfB, rAxis_a]
  norm_num

/- Unfolding equations for `ray_color`, one per branch of the source. -/

theorem ray_color_depth_le_zero (world : ray → Option hit_record)
    (scatter : ℤ → vec3 → vec3) (r : ray) (depth : ℤ) (h : depth ≤ 0) :
    ray_color world scatter r depth = ⟨0, 0, 0⟩ := by
  rw [ray_color]
  simp [h]

theorem ray_color_hit_step (world : ray → Option hit_record)
    (scatter : ℤ → vec3 → vec3) (r : ray) (depth : ℤ) (rec : hit_record)
    (h : ¬ depth ≤ 0) (hw : world r = some rec) :
    ray_color world scatter r depth =
      (0.5 : ℝ) * ray_color world scatter
        ⟨rec.p, (rec.p + scatter depth rec.normal) - rec.p⟩ (depth - 1) := by
  rw [ray_color]
  simp [h, hw]

theorem ray_color_miss (world : ray → Option hit_record)
    (scatter : ℤ → vec3 → vec3) (r : ray) (depth : ℤ)
    (h : ¬ depth ≤ 0) (hw : world r = none) :
    ray_color world scatter r depth =
      (1.0 - 0.5 * ((unit_vector r.direction).y + 1.0)) * (⟨1, 1, 1⟩ : vec3) +
        0.5 * ((unit_vector r.direction).y + 1.0) * (⟨0.5, 0.7, 1.0⟩ : vec3) := by
  rw [ray_color]
  simp [h, hw]

/-- The `y` component of a normalized vector lies in `[-1, 1]` (with the Lean
convention `x / 0 = 0` covering the zero vector). -/
theorem unit_vector_y_bounds (v : vec3) :
    -1 ≤ (unit_vector v).y ∧ (unit_vector v).y ≤ 1 := by
  have h1 : (unit_vector v).y = v.y / v.length := rfl
  have hL : 0 ≤ v.length := Real.sqrt_nonneg _
  rcases eq_or_lt_of_le hL with h0 | hpos
  · rw [h1, ← h0, div_zero]
    norm_num
  · have hy2 : v.y * v.y ≤ v.length_squared := by
      unfold vec3.length_squared
      nlinarith [sq_nonneg v.x, sq_nonneg v.z]
    have habs : |v.y| ≤ v.length := by
      have hs := Real.sqrt_le_sqrt hy2
      rwa [Real.sqrt_mul_self_eq_abs] at hs
    have h2 := abs_le.mp habs
    rw [h1]
    constructor
    · rw [le_div_iff₀ hpos]
      linarith [h2.1]
    · rw [div_le_one hpos]
      exact h2.2

theorem unit_vector_up : unit_vector ⟨0, 1, 0⟩ = ⟨0, 1, 0⟩ := by
  apply vec3.ext_iff.mpr
  norm_num [unit_vector, vec3.length, vec3.length_squared, Real.sqrt_one]

theorem unit_vector_down : unit_vector ⟨0, -1, 0⟩ = ⟨0, -1, 0⟩ := by
  apply vec3.ext_iff.mpr
  norm_num [unit_vector, vec3.length, vec3.length_squared, Real.sqrt_one]

/- List lemmas supporting the render-loop analysis. -/

theorem flatMap_range_length {α : Type} (n w : ℕ) (f : ℕ → ℕ → α) :
    ((List.range n).flatMap fun j => (List.range w).map (f j)).length = n * w := by
  rw [List.length_flatMap]
  have hmap : List.map (List.length ∘ fun j => (List.range w).map (f j)) (List.range n) =
      List.replicate n w := by
    rw [show (List.length ∘ fun j => (List.range w).map (f j)) = Function.const ℕ w by
      funext j
      simp]
    rw [List.map_const, List.length_range]
  rw [hmap, List.sum_replicate, smul_eq_mul]

theorem flatMap_range_getElem {α : Type} (n w : ℕ) (f : ℕ → ℕ → α) (j i : ℕ)
    (hj : j < n) (hi : i < w) :
    ((List.range n).flatMap fun j => (List.range w).map (f j))[j * w + i]? = some (f j i) := by
  induction n with
  | zero => omega
  | succ n ih =>
      rw [List.range_succ, List.flatMap_append]
      rw [List.getElem?_append]
      by_cases h : j < n
      · have hlt : j * w + i < n * w := by
          have : (j + 1) * w ≤ n * w := Nat.mul_le_mul_right w h
          nlinarith
        rw [if_pos (by rw [flatMap_range_length]; exact hlt)]
        exact ih h
      · have hj' : j = n := by omega
        subst hj'
        rw [if_neg (by rw [flatMap_range_length]; omega)]
        rw [flatMap_range_length]
        have : j * w + i - j * w = i := by omega
        rw [this]
        simp [List.getElem?_map, List.getElem?_range hi]

theorem reversed_range_flatMap {α : Type} (n w : ℕ) (f : ℕ → ℕ → α) :
    ((List.range n).reverse.flatMap fun j => (List.range w).map (f j)) =
      (List.range n).flatMap fun j => (List.range w).map (f (n - 1 - j)) := by
  have hrev : (List.range n).reverse = List.map (fun x => n - 1 - x) (List.range n) := by
    conv_lhs => rw [List.range_eq_range', List.reverse_range']
    simp
  rw [hrev, List.flatMap_map]

theorem image_height_eq_225 : image_height = 225 := by
  have : (image_width : ℝ) / aspect_ratio = 225 := by
    norm_num [image_width, aspect_ratio]
  rw [image_height, this]
  norm_num

/- ——————————————————————— claims ——————————————————————— -/

/-- C1 counterexample: the claim says a root exactly equal to `t_min` yields a
false return, the interval being open-closed `(t_min, t_max)`.  On the unit
sphere `sUnit` and the ray `rAxis`, the intersection parameters are exactly
`1` and `3`; with `t_min = 1` and `t_max = 2` neither lies in the open-closed
interval `(1, 2)` (the smaller root equals `t_min`, the larger exceeds
`t_max`), yet `sphere::hit` returns `true`: the code accepts the closed
interval `[t_min, t_max]`. -/
theorem C1_counterexample :
    sUnit.root1 rAxis = 1 ∧ sUnit.root2 rAxis = 3 ∧
      (sUnit.hit rAxis 1 2 recInit).1 = true := by
  refine ⟨sUnit_rAxis_root1, sUnit_rAxis_root2, ?_⟩
  rw [sphere.hit_of_root1_valid sUnit rAxis 1 2 recInit
    (by rw [sUnit_rAxis_disc]; norm_num)
    (by rw [sUnit_rAxis_root1])
    (by rw [sUnit_rAxis_root1]; norm_num)]

/-- C1 (amended): `sphere::hit` reports no hit when no intersection parameter
lies in the closed interval `[t_min, t_max]`: a negative discriminant gives a
false return, and so does every configuration in which both quadratic roots
fall strictly below `t_min` or strictly above `t_max`. -/
theorem C1_no_hit_outside_closed_interval (s : sphere) (r : ray)
    (t_min t_max : ℝ) (rec : hit_record) :
    (s.disc r < 0 → (s.hit r t_min t_max rec).1 = false) ∧
      ((s.root1 r < t_min ∨ t_max < s.root1 r) →
        (s.root2 r < t_min ∨ t_max < s.root2 r) →
        (s.hit r t_min t_max rec).1 = false) := by
  constructor
  · intro hd
    rw [sphere.hit_of_disc_neg s r t_min t_max rec hd]
  · intro h1 h2
    rw [sphere.hit_of_no_valid_root s r t_min t_max rec
      (h1.imp id fun h => h) (h2.imp id fun h => h)]

/-- Witness for the amended C1: both roots of `rAxis` against `sUnit` (namely
`1` and `3`) lie below `t_min = 10`, and the hit reports false. -/
theorem C1_no_hit_outside_closed_interval_witness :
    (sUnit.hit rAxis 10 20 recInit).1 = false :=
  (C1_no_hit_outside_closed_interval sUnit rAxis 10 20 recInit).2
    (Or.inl (by rw [sUnit_rAxis_root1]; norm_num))
    (Or.inl (by rw [sUnit_rAxis_root2]; norm_num))

/-- C10: whenever `sphere::hit` returns `false` — negative discriminant or
both roots outside the `[t_min, t_max]` bounds — the by-reference
`hit_record` is left completely unchanged. -/
theorem C10_record_unchanged (s : sphere) (r : ray) (t_min t_max : ℝ)
    (rec : hit_record) (h : (s.hit r t_min t_max rec).1 = false) :
    (s.hit r t_min t_max rec).2 = rec := by
  by_cases hd : s.disc r < 0
  · rw [sphere.hit_of_disc_neg s r t_min t_max rec hd]
  · by_cases h1 : s.root1 r < t_min ∨ s.root1 r > t_max
    · by_cases h2 : s.root2 r < t_min ∨ s.root2 r > t_max
      · rw [sphere.hit_of_no_valid_root s r t_min t_max rec h1 h2]
      · push_neg at h2
        rw [sphere.hit_of_root2_valid s r t_min t_max rec hd h1 h2.1 h2.2] at h
        simp at h
    · push_neg at h1
      rw [sphere.hit_of_root1_valid s r t_min t_max rec hd h1.1 h1.2] at h
      simp at h

/-- Witness for C10: on a false return (both roots below `t_min = 10`) the
record comes back exactly as it went in. -/
theorem C10_record_unchanged_witness :
    (sUnit.hit rAxis 10 20 recInit).2 = recInit :=
  C10_record_unchanged sUnit rAxis 10 20 recInit
    (by
      rw [sphere.hit_of_no_valid_root sUnit rAxis 10 20 recInit
        (Or.inl (by rw [sUnit_rAxis_root1]; norm_num))
        (Or.inl (by rw [sUnit_rAxis_root2]; norm_num))])

/-- C2: with a nonzero direction and a nonnegative discriminant,
`sphere::hit` tries the smaller root first, falls through to the larger root,
reports no hit when both are outside the bounds, and the reported `t` is the
smallest intersection parameter within the bounds; the surface is met exactly
at the two computed roots. -/
theorem C2_root_selection (s : sphere) (r : ray) (t_min t_max : ℝ)
    (rec : hit_record) (hdir : r.direction ≠ ⟨0, 0, 0⟩) (hd : 0 ≤ s.disc r) :
    s.root1 r ≤ s.root2 r ∧
      (∀ t : ℝ, (r.pointAt t - s.center).length_squared = s.radius * s.radius ↔
        (t = s.root1 r ∨ t = s.root2 r)) ∧
      (t_min ≤ s.root1 r → s.root1 r ≤ t_max →
        s.hit r t_min t_max rec = (true, s.successRec r rec (s.root1 r))) ∧
      ((s.root1 r < t_min ∨ t_max < s.root1 r) → t_min ≤ s.root2 r → s.root2 r ≤ t_max →
        s.hit r t_min t_max rec = (true, s.successRec r rec (s.root2 r))) ∧
      ((s.root1 r < t_min ∨ t_max < s.root1 r) → (s.root2 r < t_min ∨ t_max < s.root2 r) →
        (s.hit r t_min t_max rec).1 = false) ∧
      (∀ t' : ℝ, t_min ≤ t' → t' ≤ t_max →
        (r.pointAt t' - s.center).length_squared = s.radius * s.radius →
        (s.hit r t_min t_max rec).1 = true ∧ (s.hit r t_min t_max rec).2.t ≤ t') := by
  have hpos : 0 < r.direction.length_squared := vec3.length_squared_pos_of_ne_zero hdir
  have ha : r.direction.length_squared ≠ 0 := ne_of_gt hpos
  have hnd : ¬ s.disc r < 0 := not_lt.mpr hd
  have hord : s.root1 r ≤ s.root2 r := sphere.root1_le_root2 s r hpos
  refine ⟨hord, sphere.on_sphere_iff_root s r ha hd, ?_, ?_, ?_, ?_⟩
  · intro h1 h2
    exact sphere.hit_of_root1_valid s r t_min t_max rec hnd h1 h2
  · intro h1 h2 h3
    exact sphere.hit_of_root2_valid s r t_min t_max rec hnd h1 h2 h3
  · intro h1 h2
    rw [sphere.hit_of_no_valid_root s r t_min t_max rec h1 h2]
  · intro t' hmin hmax hsurf
    rcases (sphere.on_sphere_iff_root s r ha hd t').mp hsurf with h | h
    · subst h
      rw [sphere.hit_of_root1_valid s r t_min t_max rec hnd hmin hmax]
      exact ⟨rfl, le_of_eq (sphere.successRec_t s r rec _)⟩
    · subst h
      by_cases h1 : s.root1 r < t_min ∨ s.root1 r > t_max
      · rw [sphere.hit_of_root2_valid s r t_min t_max rec hnd h1 hmin hmax]
        exact ⟨rfl, le_of_eq (sphere.successRec_t s r rec _)⟩
      · push_neg at h1
        rw [sphere.hit_of_root1_valid s r t_min t_max rec hnd h1.1 h1.2]
        refine ⟨rfl, ?_⟩
        rw [sphere.successRec_t]
        exact hord

/-- Witness for C2: on `sUnit` and `rAxis` with bounds `[0, 10]`, the smaller
root `1` is valid and the hit reports it. -/
theorem C2_root_selection_witness :
    sUnit.hit rAxis 0 10 recInit = (true, sUnit.successRec rAxis recInit (sUnit.root1 rAxis)) := by
  have h := C2_root_selection sUnit rAxis 0 10 recInit
    (by
      simp only [rAxis, ray.direction, ne_eq, vec3.ext_iff]
      norm_num)
    (by rw [sUnit_rAxis_disc]; norm_num)
  exact h.2.2.1 (by rw [sUnit_rAxis_root1]; norm_num) (by rw [sUnit_rAxis_root1]; norm_num)

/-- C3: on every hit reported by `sphere::hit` (nonzero direction, nonzero
radius), the reported normal is the outward normal `(p - center)/radius` or
its negation, the hit point lies exactly on the sphere, the normal has unit
length, and it satisfies `dot(ray.direction, normal) <= 0` (kept as-is when
`dot(ray.direction, outward_normal) < 0`, negated otherwise). -/
theorem C3_normal_invariant (s : sphere) (r : ray) (t_min t_max : ℝ)
    (rec : hit_record) (hdir : r.direction ≠ ⟨0, 0, 0⟩) (hrad : s.radius ≠ 0)
    (hhit : (s.hit r t_min t_max rec).1 = true) :
    ((s.hit r t_min t_max rec).2.normal =
        ((s.hit r t_min t_max rec).2.p - s.center) / s.radius ∨
      (s.hit r t_min t_max rec).2.normal =
        -(((s.hit r t_min t_max rec).2.p - s.center) / s.radius)) ∧
      ((s.hit r t_min t_max rec).2.p - s.center).length_squared = s.radius * s.radius ∧
      (s.hit r t_min t_max rec).2.normal.length = 1 ∧
      dot r.direction (s.hit r t_min t_max rec).2.normal ≤ 0 := by
  have hpos : 0 < r.direction.length_squared := vec3.length_squared_pos_of_ne_zero hdir
  have ha : r.direction.length_squared ≠ 0 := ne_of_gt hpos
  obtain ⟨hnd, hcase⟩ := sphere.hit_true_cases s r t_min t_max rec hhit
  have hd : 0 ≤ s.disc r := not_lt.mp hnd
  have main : ∀ root : ℝ, (root = s.root1 r ∨ root = s.root2 r) →
      (s.hit r t_min t_max rec).2 = s.successRec r rec root →
      ((s.hit r t_min t_max rec).2.normal =
          ((s.hit r t_min t_max rec).2.p - s.center) / s.radius ∨
        (s.hit r t_min t_max rec).2.normal =
          -(((s.hit r t_min t_max rec).2.p - s.center) / s.radius)) ∧
        ((s.hit r t_min t_max rec).2.p - s.center).length_squared = s.radius * s.radius ∧
        (s.hit r t_min t_max rec).2.normal.length = 1 ∧
        dot r.direction (s.hit r t_min t_max rec).2.normal ≤ 0 := by
    intro root hroot heq
    have hp : (s.hit r t_min t_max rec).2.p = r.pointAt root := by
      rw [heq, sphere.successRec_p]
    have hsurf : (r.pointAt root - s.center).length_squared = s.radius * s.radius :=
      (sphere.on_sphere_iff_root s r ha hd root).mpr hroot
    have hsurf' : ((s.hit r t_min t_max rec).2.p - s.center).length_squared =
        s.radius * s.radius := by rw [hp]; exact hsurf
    have hnormal : (s.hit r t_min t_max rec).2.normal =
          ((s.hit r t_min t_max rec).2.p - s.center) / s.radius ∨
        (s.hit r t_min t_max rec).2.normal =
          -(((s.hit r t_min t_max rec).2.p - s.center) / s.radius) := by
      rw [heq, sphere.successRec_p]
      exact sphere.successRec_normal s r rec root
    refine ⟨hnormal, hsurf', ?_, ?_⟩
    · have hulen : (((s.hit r t_min t_max rec).2.p - s.center) / s.radius).length_squared = 1 := by
        rw [div_length_squared, hsurf']
        field_simp
      have hnlen : (s.hit r t_min t_max rec).2.normal.length_squared = 1 := by
        rcases hnormal with hn | hn
        · rw [hn, hulen]
        · rw [hn, neg_length_squared, hulen]
      rw [vec3.length, hnlen, Real.sqrt_one]
    · rw [heq]
      exact sphere.successRec_dot_nonpos s r rec root
  rcases hcase with heq | heq
  · exact main (s.root1 r) (Or.inl rfl) heq
  · exact main (s.root2 r) (Or.inr rfl) heq

/-- Witness for C3: on the concrete hit of `rAxis` against `sUnit`, the
reported normal is unit length and opposes the ray direction. -/
theorem C3_normal_invariant_witness :
    (sUnit.hit rAxis 0 10 recInit).2.normal.length = 1 ∧
      dot rAxis.direction (sUnit.hit rAxis 0 10 recInit).2.normal ≤ 0 := by
  have h := C3_normal_invariant sUnit rAxis 0 10 recInit
    (by
      simp only [rAxis, ray.direction, ne_eq, vec3.ext_iff]
      norm_num)
    (by norm_num [sUnit])
    (by
      rw [sphere.hit_of_root1_valid sUnit rAxis 0 10 recInit
        (by rw [sUnit_rAxis_disc]; norm_num)
        (by rw [sUnit_rAxis_root1]; norm_num)
        (by rw [sUnit_rAxis_root1]; norm_num)])
  exact ⟨h.2.2.1, h.2.2.2⟩

/-- C4: a ray (nonzero direction) whose squared closest approach to the
sphere center exceeds the squared radius has a strictly negative discriminant
and `sphere::hit` reports no hit for all bounds. -/
theorem C4_no_false_intersection (s : sphere) (r : ray)
    (hdir : r.direction ≠ ⟨0, 0, 0⟩)
    (hfar : s.radius * s.radius < closest_approach_sq s.center r) :
    s.disc r < 0 ∧
      ∀ (t_min t_max : ℝ) (rec : hit_record), (s.hit r t_min t_max rec).1 = false := by
  have hpos : 0 < r.direction.length_squared := vec3.length_squared_pos_of_ne_zero hdir
  have ha : r.direction.length_squared ≠ 0 := ne_of_gt hpos
  have hdisc : s.disc r < 0 := by
    unfold closest_approach_sq at hfar
    unfold sphere.disc sphere.halfB sphere.cCoeff
    have hmul := (mul_lt_mul_left hpos).mpr hfar
    rw [mul_sub, mul_div_cancel₀ _ ha] at hmul
    nlinarith
  refine ⟨hdisc, fun t_min t_max rec => ?_⟩
  rw [sphere.hit_of_disc_neg s r t_min t_max rec hdisc]

/-- Witness for C4: the line of `rMiss` passes the center of `sUnit` at
squared distance `4 > 1`, so the discriminant is negative and no hit is
reported. -/
theorem C4_no_false_intersection_witness :
    sUnit.disc rMiss < 0 ∧ (sUnit.hit rMiss 0.001 1000 recInit).1 = false := by
  have h := C4_no_false_intersection sUnit rMiss
    (by
      simp only [rMiss, ray.direction, ne_eq, vec3.ext_iff]
      norm_num)
    (by
      norm_num [closest_approach_sq, sUnit, rMiss, ray.origin, ray.direction, dot,
        vec3.length_squared])
  exact ⟨h.1, h.2 0.001 1000 recInit⟩

/-- C5: `ray_color` with `depth <= 0` returns the zero color for every scene
and every scatter choice, without depending on the scene content. -/
theorem C5_depth_guard (world : ray → Option hit_record)
    (scatter : ℤ → vec3 → vec3) (r : ray) (depth : ℤ) (h : depth ≤ 0) :
    ray_color world scatter r depth = ⟨0, 0, 0⟩ :=
  ray_color_depth_le_zero world scatter r depth h

/-- Witness for C5 at `depth = 0` on a concrete scene and ray. -/
theorem C5_depth_guard_witness :
    ray_color worldNone scatterZero rUp 0 = ⟨0, 0, 0⟩ :=
  C5_depth_guard worldNone scatterZero rUp 0 (by norm_num)

/-- C6: a ray that misses the scene with positive depth gets the deterministic
background gradient `(1-t)*(1,1,1) + t*(0.5,0.7,1.0)` with
`t = 0.5*(unit_direction.y + 1.0)`; direction `(0,1,0)` gives `(0.5,0.7,1.0)`
and direction `(0,-1,0)` gives `(1,1,1)`. -/
theorem C6_background_gradient (world : ray → Option hit_record)
    (scatter : ℤ → vec3 → vec3) (r : ray) (depth : ℤ)
    (hmiss : world r = none) (hd : 0 < depth) :
    ray_color world scatter r depth =
        (1.0 - 0.5 * ((unit_vector r.direction).y + 1.0)) * (⟨1, 1, 1⟩ : vec3) +
          0.5 * ((unit_vector r.direction).y + 1.0) * (⟨0.5, 0.7, 1.0⟩ : vec3) ∧
      (r.direction = ⟨0, 1, 0⟩ → ray_color world scatter r depth = ⟨0.5, 0.7, 1.0⟩) ∧
      (r.direction = ⟨0, -1, 0⟩ → ray_color world scatter r depth = ⟨1, 1, 1⟩) := by
  have h : ¬ depth ≤ 0 := not_le.mpr hd
  have hmain := ray_color_miss world scatter r depth h hmiss
  refine ⟨hmain, ?_, ?_⟩
  · intro hup
    rw [hmain, hup, unit_vector_up]
    apply vec3.ext_iff.mpr
    norm_num
  · intro hdown
    rw [hmain, hdown, unit_vector_down]
    apply vec3.ext_iff.mpr
    norm_num

/-- Witness for C6: the straight-up ray against the empty scene at depth 1
returns the sky-blue endpoint. -/
theorem C6_background_gradient_witness :
    ray_color worldNone scatterZero rUp 1 = ⟨0.5, 0.7, 1.0⟩ :=
  (C6_background_gradient worldNone scatterZero rUp 1 rfl one_pos).2.1 rfl

/-- Channel bounds for `ray_color`, by induction on a fuel bound for the
depth counter. -/
theorem ray_color_bounds_aux :
    ∀ (n : ℕ) (world : ray → Option hit_record) (scatter : ℤ → vec3 → vec3)
      (r : ray) (depth : ℤ), depth.toNat ≤ n →
      (0 ≤ (ray_color world scatter r depth).x ∧ (ray_color world scatter r depth).x ≤ 1) ∧
        (0 ≤ (ray_color world scatter r depth).y ∧ (ray_color world scatter r depth).y ≤ 1) ∧
        (0 ≤ (ray_color world scatter r depth).z ∧ (ray_color world scatter r depth).z ≤ 1) := by
  intro n
  induction n with
  | zero =>
      intro world scatter r depth hn
      have h : depth ≤ 0 := by omega
      rw [ray_color_depth_le_zero world scatter r depth h]
      norm_num
  | succ n ih =>
      intro world scatter r depth hn
      by_cases h : depth ≤ 0
      · rw [ray_color_depth_le_zero world scatter r depth h]
        norm_num
      · cases hw : world r with
        | none =>
            rw [ray_color_miss world scatter r depth h hw]
            obtain ⟨hy1, hy2⟩ := unit_vector_y_bounds r.direction
            simp only [vec3.add_x, vec3.add_y, vec3.add_z, vec3.smul_x, vec3.smul_y,
              vec3.smul_z]
            refine ⟨⟨?_, ?_⟩, ⟨?_, ?_⟩, ⟨?_, ?_⟩⟩ <;> nlinarith
        | some rec =>
            rw [ray_color_hit_step world scatter r depth rec h hw]
            have hdep : (depth - 1).toNat ≤ n := by omega
            obtain ⟨⟨hx1, hx2⟩, ⟨hy1, hy2⟩, ⟨hz1, hz2⟩⟩ :=
              ih world scatter ⟨rec.p, (rec.p + scatter depth rec.normal) - rec.p⟩
                (depth - 1) hdep
            simp only [vec3.smul_x, vec3.smul_y, vec3.smul_z]
            refine ⟨⟨?_, ?_⟩, ⟨?_, ?_⟩, ⟨?_, ?_⟩⟩ <;> nlinarith

/-- C7: for every scene, every scatter choice, every ray, and every depth,
each RGB channel of the color returned by `ray_color` lies in `[0, 1]`: the
depth guard returns black, the miss branch interpolates between `(1,1,1)` and
`(0.5,0.7,1.0)`, and each bounce multiplies an in-range color by `0.5`. -/
theorem C7_channel_bounds (world : ray → Option hit_record)
    (scatter : ℤ → vec3 → vec3) (r : ray) (depth : ℤ) :
    (0 ≤ (ray_color world scatter r depth).x ∧ (ray_color world scatter r depth).x ≤ 1) ∧
      (0 ≤ (ray_color world scatter r depth).y ∧ (ray_color world scatter r depth).y ≤ 1) ∧
      (0 ≤ (ray_color world scatter r depth).z ∧ (ray_color world scatter r depth).z ≤ 1) :=
  ray_color_bounds_aux depth.toNat world scatter r depth le_rfl

/-- C8: the render output is the header `P3`, `400 225`, `255` (height 225
being the integer truncation of `400 / (16/9)`) followed by exactly 90000
pixel lines, rows emitted from `j = 224` down to `0` and columns from `i = 0`
to `399`: the pixel line at offset `row * 400 + col` of the pixel stream
comes from loop indices `j = 224 - row`, `i = col`. -/
theorem C8_render_output :
    image_height = 225 ∧
      render.take 3 = [ppmLine.magic, ppmLine.dims 400 225, ppmLine.maxval 255] ∧
      (render.drop 3).length = 90000 ∧
      (∀ row col : ℕ, row < 225 → col < 400 →
        (render.drop 3)[row * 400 + col]? = some (ppmLine.pixel (224 - row) col)) := by
  have hh := image_height_eq_225
  have htn : image_height.toNat = 225 := by rw [hh]; rfl
  have hwn : image_width.toNat = 400 := rfl
  have hdrop : render.drop 3 = (List.range image_height.toNat).reverse.flatMap
      (fun j => (List.range image_width.toNat).map fun i => ppmLine.pixel j i) := rfl
  have hpix : render.drop 3 = (List.range 225).flatMap
      (fun j => (List.range 400).map fun i => ppmLine.pixel (225 - 1 - j) i) := by
    rw [hdrop, htn, hwn, reversed_range_flatMap]
  refine ⟨hh, ?_, ?_, ?_⟩
  · have : render.take 3 =
        [ppmLine.magic, ppmLine.dims image_width image_height, ppmLine.maxval 255] := rfl
    rw [this, hh]
    rfl
  · rw [hpix, flatMap_range_length]
  · intro row col h1 h2
    rw [hpix]
    have h := flatMap_range_getElem 225 400
      (fun j i => ppmLine.pixel (225 - 1 - j) i) row col h1 h2
    exact h

/-- C9: the legacy full-`b` formulation of `hit_sphere` and the half-`b`
formulation of `sphere::hit` agree: the discriminants have the same sign, and
when the discriminant is nonnegative the root reported by `hit_sphere` is
exactly the smaller root `root1` of `sphere::hit`. -/
theorem C9_full_half_b_agreement (s : sphere) (r : ray) :
    (discFull s.center s.radius r < 0 ↔ s.disc r < 0) ∧
      (0 ≤ s.disc r → hit_sphere s.center s.radius r = s.root1 r) := by
  have h4 : discFull s.center s.radius r = 4 * s.disc r := by
    unfold discFull bFull sphere.disc sphere.halfB sphere.cCoeff
    rw [dot_self_eq_length_squared, dot_self_eq_length_squared]
    ring
  constructor
  · rw [h4]
    constructor <;> intro <;> linarith
  · intro hd
    have hnd : ¬ discFull s.center s.radius r < 0 := by
      rw [h4]
      linarith
    have hsq : Real.sqrt (discFull s.center s.radius r) = 2 * Real.sqrt (s.disc r) := by
      rw [h4, show (4 : ℝ) = 2 ^ 2 by norm_num,
        Real.sqrt_mul (by positivity) (s.disc r), Real.sqrt_sq (by norm_num : (0:ℝ) ≤ 2)]
    unfold hit_sphere
    rw [if_neg hnd, hsq]
    unfold sphere.root1 sphere.halfB bFull
    rw [dot_self_eq_length_squared]
    rcases eq_or_ne r.direction.length_squared 0 with hz | hz
    · rw [hz]
      norm_num
    · field_simp
      ring

/-- Witness for C9: on `sUnit` and `rAxis` the half-`b` discriminant is `1 ≥ 0`
and the legacy root agrees with `root1`. -/
theorem C9_full_half_b_agreement_witness :
    (discFull sUnit.center sUnit.radius rAxis < 0 ↔ sUnit.disc rAxis < 0) ∧
      hit_sphere sUnit.center sUnit.radius rAxis = sUnit.root1 rAxis :=
  ⟨(C9_full_half_b_agreement sUnit rAxis).1,
    (C9_full_half_b_agreement sUnit rAxis).2 (by rw [sUnit_rAxis_disc]; norm_num)⟩

/-- Witness for C8: the first emitted pixel line comes from the top row
`j = 224`, column `0`. -/
theorem C8_render_output_witness :
    (render.drop 3)[0 * 400 + 0]? = some (ppmLine.pixel (224 - 0) 0) :=
  C8_render_output.2.2.2 0 0 (by norm_num) (by norm_num)
